import Mathlib

/-!
# Turing Soup: a shallow embedding of the BFF engine

This file embeds the core of the Turing Soup repository in Lean 4 and
proves properties of the embedded code:

* the BFF interpreter (`src/js/bff.js`, class `BFFInterpreter`):
  tape access with index wrapping, the ten-opcode dispatch, bounded
  bracket matching, and the run loop;
* the population manager (`src/js/bff.js`, class `Population`):
  slice extraction, tape concatenation and splitting, the
  no-instruction short-circuit, the compression-cost write-back of
  `runPair`, and mutation;
* the WASM driver (`population-wasm.js`, `worker.js`): aligned pair
  selection with locality, the worker's fixed-orientation write-back,
  and the event order of `soupStep`.

Bytes are modelled as `Nat` values kept below 256 by the same masking
the JavaScript `Uint8Array` performs; JavaScript `%` on possibly
negative numbers is modelled with `Int.tmod` (truncated remainder,
like JS).
-/

namespace TuringSoup

/-! ## Opcode byte values (`BFF_INSTRUCTIONS` in bff.js) -/

def OP_LT : Nat := 0x3C   -- head0 decrement
def OP_GT : Nat := 0x3E   -- head0 increment
def OP_LBRACE : Nat := 0x7B  -- head1 decrement
def OP_RBRACE : Nat := 0x7D  -- head1 increment
def OP_MINUS : Nat := 0x2D
def OP_PLUS : Nat := 0x2B
def OP_DOT : Nat := 0x2E
def OP_COMMA : Nat := 0x2C
def OP_LBRACK : Nat := 0x5B
def OP_RBRACK : Nat := 0x5D

/-- The set of the ten BFF opcode bytes (`hasInstructions` in bff.js
builds exactly this set). -/
def instructionBytes : List Nat :=
  [OP_LT, OP_GT, OP_LBRACE, OP_RBRACE, OP_PLUS, OP_MINUS, OP_DOT, OP_COMMA,
   OP_LBRACK, OP_RBRACK]

/-- `byteToInstruction(byte) !== null` in bff.js: the byte is one of the
ten opcodes. -/
def isInstruction (b : Nat) : Bool := instructionBytes.contains b

/-! ## Tape (tape.js, class `Tape`)

A tape is a byte buffer; every access wraps the index with JavaScript
`((index % size) + size) % size`, where `%` is the truncated remainder. -/

/-- JavaScript `((index % size) + size) % size` on a possibly negative
index; `Int.tmod` is JavaScript's `%`. -/
def wrapIdx (size : Nat) (i : Int) : Nat :=
  (((i.tmod size) + size).tmod size).toNat

/-- `Tape.get`: read with index wrapping.  Out-of-range reads of the
backing store return 0 (they cannot happen after wrapping). -/
def tapeGet (t : List Nat) (i : Int) : Nat :=
  t.getD (wrapIdx t.length i) 0

/-- `Tape.set`: write with index wrapping; the value is masked to a byte
(`value & 0xFF`). -/
def tapeSet (t : List Nat) (i : Int) (v : Nat) : List Nat :=
  t.set (wrapIdx t.length i) (v % 256)

/-- `Tape.increment`: `(data[i] + 1) & 0xFF`. -/
def tapeIncrement (t : List Nat) (i : Int) : List Nat :=
  let j := wrapIdx t.length i
  t.set j ((t.getD j 0 + 1) % 256)

/-- `Tape.decrement`: `(data[i] - 1) & 0xFF`; on a byte value this is
adding 255 modulo 256. -/
def tapeDecrement (t : List Nat) (i : Int) : List Nat :=
  let j := wrapIdx t.length i
  t.set j ((t.getD j 0 + 255) % 256)

/-! ## Interpreter state (`BFFInterpreter` in bff.js) -/

/-- Halt reasons (`haltReason` strings in bff.js plus the
`no_instructions` short-circuit of `Population.runPair`). -/
inductive HaltReason where
  | maxSteps
  | endOfTape
  | unmatchedBracket
  | noInstructions
  deriving DecidableEq, Repr

/-- The mutable fields of a `BFFInterpreter` together with its tape. -/
structure BFF where
  tape : List Nat
  ip : Nat
  head0 : Nat
  head1 : Nat
  stepCount : Nat
  writeCount : Nat
  loopJumps : Nat
  halted : Bool
  haltReason : Option HaltReason
  deriving DecidableEq, Repr

/-- `BFFInterpreter.MAX_STEPS` (static, 2^13). -/
def MAX_STEPS : Nat := 8192

/-- `BFFInterpreter.reset` applied to a fresh interpreter on `t`:
all heads at 0, all counters 0, not halted. -/
def reset (t : List Nat) : BFF :=
  { tape := t, ip := 0, head0 := 0, head1 := 0, stepCount := 0,
    writeCount := 0, loopJumps := 0, halted := false, haltReason := none }

/-- `BFFInterpreter._findMatchingBracket` (bff.js): scan from `pos` in
direction `dir`, tracking nesting `depth`; stop with `none` (the source
returns `-1`) as soon as the scan position leaves `[0, L)`.  The `fuel`
argument bounds the loop; `t.length + 1` is always enough because the
scan moves one position per iteration and stops at the boundaries. -/
def findMatchFuel (t : List Nat) (dir : Int) : Nat → Int → Int → Option Nat
  | 0, _, _ => none
  | fuel + 1, depth, pos =>
    let pos' := pos + dir
    if pos' < 0 ∨ (t.length : Int) ≤ pos' then
      none
    else
      let byte := t.getD pos'.toNat 0
      let depth' :=
        if dir = 1 then
          if byte = OP_LBRACK then depth + 1
          else if byte = OP_RBRACK then depth - 1
          else depth
        else
          if byte = OP_RBRACK then depth + 1
          else if byte = OP_LBRACK then depth - 1
          else depth
      if depth' = 0 then some pos'.toNat
      else findMatchFuel t dir fuel depth' pos'

/-- `_findMatchingBracket(start, direction)` with its initial depth 1. -/
def findMatchingBracket (t : List Nat) (start : Nat) (dir : Int) : Option Nat :=
  findMatchFuel t dir (t.length + 1) 1 start

/-- The common tail of `BFFInterpreter.step`: `ip++`, then halt with
`end_of_tape` when `ip ≥ tape.size`. -/
def advanceIP (s : BFF) : BFF :=
  let ip' := s.ip + 1
  if s.tape.length ≤ ip' then
    { s with ip := ip', halted := true, haltReason := some .endOfTape }
  else
    { s with ip := ip' }

/-- The ten BFF instructions (the characters of `BFF_INSTRUCTIONS`). -/
inductive Instr where
  | hd0Dec | hd0Inc | hd1Dec | hd1Inc | dec | inc | copyTo | copyFrom | brLeft | brRight
  deriving DecidableEq, Repr

/-- `byteToInstruction` (bff.js): the instruction a byte encodes, or
`none` for the 246 no-op byte values. -/
def byteToInstruction (b : Nat) : Option Instr :=
  if b = OP_LT then some .hd0Dec
  else if b = OP_GT then some .hd0Inc
  else if b = OP_LBRACE then some .hd1Dec
  else if b = OP_RBRACE then some .hd1Inc
  else if b = OP_MINUS then some .dec
  else if b = OP_PLUS then some .inc
  else if b = OP_DOT then some .copyTo
  else if b = OP_COMMA then some .copyFrom
  else if b = OP_LBRACK then some .brLeft
  else if b = OP_RBRACK then some .brRight
  else none

/-- The dispatch of `BFFInterpreter.step` (the no-op branch plus the
`switch` on the decoded instruction), after the step counter has been
incremented. -/
def stepDispatch (s : BFF) : Option Instr → BFF
  | none => advanceIP s
  | some .hd0Dec =>
    advanceIP { s with head0 := wrapIdx s.tape.length ((s.head0 : Int) - 1) }
  | some .hd0Inc =>
    advanceIP { s with head0 := wrapIdx s.tape.length ((s.head0 : Int) + 1) }
  | some .hd1Dec =>
    advanceIP { s with head1 := wrapIdx s.tape.length ((s.head1 : Int) - 1) }
  | some .hd1Inc =>
    advanceIP { s with head1 := wrapIdx s.tape.length ((s.head1 : Int) + 1) }
  | some .dec =>
    advanceIP { s with tape := tapeDecrement s.tape s.head0,
                       writeCount := s.writeCount + 1 }
  | some .inc =>
    advanceIP { s with tape := tapeIncrement s.tape s.head0,
                       writeCount := s.writeCount + 1 }
  | some .copyTo =>
    advanceIP { s with tape := tapeSet s.tape s.head1 (tapeGet s.tape s.head0),
                       writeCount := s.writeCount + 1 }
  | some .copyFrom =>
    advanceIP { s with tape := tapeSet s.tape s.head0 (tapeGet s.tape s.head1),
                       writeCount := s.writeCount + 1 }
  | some .brLeft =>
    if tapeGet s.tape s.head0 = 0 then
      match findMatchingBracket s.tape s.ip 1 with
      | none => { s with halted := true, haltReason := some .unmatchedBracket }
      | some tgt => advanceIP { s with ip := tgt }
    else advanceIP s
  | some .brRight =>
    if tapeGet s.tape s.head0 ≠ 0 then
      match findMatchingBracket s.tape s.ip (-1) with
      | none => { s with halted := true, haltReason := some .unmatchedBracket }
      | some tgt => advanceIP { s with ip := tgt, loopJumps := s.loopJumps + 1 }
    else advanceIP s

/-- `BFFInterpreter.step`: return unchanged when halted; halt with
`max_steps` at the step cap; otherwise count the step and dispatch on
the byte under the instruction pointer. -/
def step (s : BFF) : BFF :=
  if s.halted then s
  else if MAX_STEPS ≤ s.stepCount then
    { s with halted := true, haltReason := some .maxSteps }
  else
    stepDispatch { s with stepCount := s.stepCount + 1 }
      (byteToInstruction (tapeGet s.tape s.ip))

/-- `BFFInterpreter.run`'s `while (!this.halted) this.step()` loop,
bounded by fuel. -/
def runFuel : Nat → BFF → BFF
  | 0, s => s
  | fuel + 1, s => if s.halted then s else runFuel fuel (step s)

/-- `BFFInterpreter.run` on a freshly reset interpreter: `MAX_STEPS + 1`
iterations always suffice to reach a halted state (proved below). -/
def run (s : BFF) : BFF := runFuel (MAX_STEPS + 1) s

/-! ## Population (`src/js/bff.js`, class `Population`)

The soup is a flat byte buffer of `width * height` bytes; regions are
`regionSize`-byte slices.  `neighborsPerSide` is fixed to 2 in the
constructor. -/

structure Population where
  width : Nat
  height : Nat
  regionSize : Nat
  soup : List Nat
  deriving DecidableEq, Repr

def NEIGHBORS_PER_SIDE : Nat := 2

/-- `Population.getSlice(start)`: `regionSize` bytes starting at
`start`, wrapping at the end of the soup. -/
def getSlice (p : Population) (start : Nat) : List Nat :=
  (List.range p.regionSize).map fun i => p.soup.getD ((start + i) % p.soup.length) 0

/-- `Population.setSlice(start, tape)`: write `regionSize` bytes back
starting at `start`, wrapping at the end of the soup (the `Uint8Array`
store masks each byte). -/
def setSlice (p : Population) (start : Nat) (data : List Nat) : Population :=
  let soup' := (List.range p.regionSize).foldl
    (fun s i => s.set ((start + i) % s.length) (data.getD i 0 % 256)) p.soup
  { p with soup := soup' }

/-- `Population.combineTapes(tapeA, tapeB, 'concat')`: a `2R` tape with
`combined[i] = dataA[i]` and `combined[i + R] = dataB[i]`. -/
def combineTapes (R : Nat) (dataA dataB : List Nat) : List Nat :=
  (List.range (2 * R)).map fun i =>
    if i < R then dataA.getD i 0 else dataB.getD (i - R) 0

/-- The `left` half produced by `Population.splitTape(combined, 'concat')`. -/
def splitLeft (R : Nat) (data : List Nat) : List Nat :=
  (List.range R).map fun i => data.getD i 0

/-- The `right` half produced by `Population.splitTape(combined, 'concat')`. -/
def splitRight (R : Nat) (data : List Nat) : List Nat :=
  (List.range R).map fun i => data.getD (i + R) 0

/-- `Population.hasInstructions(tape)`: some byte is one of the ten
opcodes. -/
def hasInstructions (data : List Nat) : Bool :=
  data.any isInstruction

/-- `soup.slice(r * width, (r + 1) * width)`: one row of the soup. -/
def rowSlice (p : Population) (r : Nat) : List Nat :=
  (p.soup.drop (r * p.width)).take p.width

/-- The row index `((row - i) + height) % height` used by
`Population.getNeighborRows`; `row - i` can be negative in JS, hence the
`Int` arithmetic. -/
def wrapRow (p : Population) (i : Int) : Nat :=
  ((i.tmod p.height + p.height).tmod p.height).toNat

/-- `Population.getNeighborRows(slot).above`: the rows `row - 1, ...,
row - neighborsPerSide` (wrapped), in that order. -/
def neighborRowsAbove (p : Population) (slot : Nat) : List (List Nat) :=
  let row := slot / p.width
  (List.range NEIGHBORS_PER_SIDE).map fun i =>
    rowSlice p (wrapRow p ((row : Int) - (i + 1)))

/-- `Population.getNeighborRows(slot).below`: the rows `row + 1, ...,
row + neighborsPerSide` (wrapped), in that order. -/
def neighborRowsBelow (p : Population) (slot : Nat) : List (List Nat) :=
  let row := slot / p.width
  (List.range NEIGHBORS_PER_SIDE).map fun i =>
    rowSlice p (wrapRow p ((row : Int) + (i + 1)))

/-- The bigrams `(data[i] << 8) | data[i+1]` of one array, as collected
by `Population.compressionCost`. -/
def bigramsOfArray (d : List Nat) : List Nat :=
  (List.range (d.length - 1)).map fun i =>
    (d.getD i 0) <<< 8 ||| d.getD (i + 1) 0

/-- All bigrams collected by `Population.compressionCost`: the bigrams
inside each array plus, between consecutive arrays, the bigram spanning
from the last byte of one to the first byte of the next. -/
def allBigrams : List (List Nat) → List Nat
  | [] => []
  | [d] => bigramsOfArray d
  | d :: d' :: rest =>
    bigramsOfArray d ++ ((d.getD (d.length - 1) 0) <<< 8 ||| d'.getD 0 0)
      :: allBigrams (d' :: rest)

/-- `Population.compressionCost(arrays)`: the number of distinct bigrams
(the JS code inserts them into a `Set` and returns its size). -/
def compressionCost (arrays : List (List Nat)) : Nat :=
  (allBigrams arrays).dedup.length

/-- The statistics object returned by `Population.runPair`. -/
structure PairResult where
  steps : Nat
  haltReason : Option HaltReason
  writes : Nat
  loopJumps : Nat
  deriving DecidableEq, Repr

/-- The write-back phase of `Population.runPair`, entered only when the
interpreter reported at least one tape modification (`writeCount > 0`):
split the final tape, compare the neighbor-row compression costs of the
two orientations, and write the halves back to `a` and `b`, swapped when
`costSwap < costNoSwap`. -/
def runPairWriteBack (p : Population) (a b : Nat) (f : BFF) : Population :=
  if 0 < f.writeCount then
    let left := splitLeft p.regionSize f.tape
    let right := splitRight p.regionSize f.tape
    let aAbove := neighborRowsAbove p a
    let aBelow := neighborRowsBelow p a
    let bAbove := neighborRowsAbove p b
    let bBelow := neighborRowsBelow p b
    let costNoSwap :=
      compressionCost (aAbove ++ left :: aBelow) +
      compressionCost (bAbove ++ right :: bBelow)
    let costSwap :=
      compressionCost (aAbove ++ right :: aBelow) +
      compressionCost (bAbove ++ left :: bBelow)
    if costSwap < costNoSwap then
      setSlice (setSlice p a right) b left
    else
      setSlice (setSlice p a left) b right
  else p

/-- `Population.runPair({a, b})`: extract the two slices, concatenate
them, short-circuit when the tape holds no opcode, otherwise run the
interpreter to the halt and perform the conditional write-back. -/
def runPair (p : Population) (a b : Nat) : Population × PairResult :=
  let tapeA := getSlice p a
  let tapeB := getSlice p b
  let combined := combineTapes p.regionSize tapeA tapeB
  if ¬ hasInstructions combined then
    (p, { steps := 0, haltReason := some .noInstructions, writes := 0, loopJumps := 0 })
  else
    let f := run (reset combined)
    (runPairWriteBack p a b f,
     { steps := f.stepCount, haltReason := f.haltReason,
       writes := f.writeCount, loopJumps := f.loopJumps })

/-! ## Worker write-back (`worker.js`, `'execute'` message)

After the WASM batch call, for each pair the worker copies the
post-execution tape back to the shared soup only when
`mathCount > 0 || copyCount > 0`, and always in the fixed orientation
`soup[a + j] = tape[j]`, `soup[b + j] = tape[regionSize + j]`. -/

/-- The worker's write-back loop body for one pair: for each
`j < regionSize`, `soup[a + j] = tape[j]` then
`soup[b + j] = tape[regionSize + j]`. -/
def workerWriteLoop (regionSize a b : Nat) (tape : List Nat) (soup : List Nat) : List Nat :=
  (List.range regionSize).foldl
    (fun s j => (s.set (a + j) (tape.getD j 0)).set (b + j) (tape.getD (regionSize + j) 0))
    soup

/-- The worker's conditional write-back for one pair, gated on
`mathCount > 0 || copyCount > 0`. -/
def workerWriteBack (regionSize a b mathCount copyCount : Nat)
    (tape : List Nat) (soup : List Nat) : List Nat :=
  if 0 < mathCount ∨ 0 < copyCount then
    workerWriteLoop regionSize a b tape soup
  else soup

/-! ## Pair selection (`population-wasm.js`, `selectRandomSlice` /
`selectRandomPair`)

`Math.random()` draws are abstracted as a supplied number `draw` with
`draw < n` whenever the source computes `Math.floor(Math.random() * n)`;
the rejection loop consumes a list of draws and returns `none` when it
runs out. -/

/-- `maxStart / alignment + 1`, the number of aligned start positions
(`numPositions` in `selectRandomSlice` and `selectRandomPair`). -/
def numPositions (soupLen regionSize alignment : Nat) : Nat :=
  (soupLen - regionSize) / alignment + 1

/-- `PopulationWasm.selectRandomSlice`: an aligned start position from a
uniform draw `pos < numPositions`. -/
def selectRandomSlice (alignment : Nat) (pos : Nat) : Nat :=
  pos * alignment

/-- `Math.floor(localityLimit * numTapes * regionSize / alignment / 100)`:
the locality window measured in aligned positions. -/
def localityInPositions (localityLimit numTapes regionSize alignment : Nat) : Nat :=
  localityLimit * numTapes * regionSize / (alignment * 100)

/-- The locality-constrained candidate for `b`: `minPos + draw` with
`draw < maxPos - minPos + 1`, where `minPos = max 0 (posA - delta)` and
`maxPos = min (numPositions - 1) (posA + delta)`. -/
def localCandidate (regionSize alignment localityLimit numTapes a : Nat)
    (draw : Nat) : Nat :=
  let posA := a / alignment
  let delta := localityInPositions localityLimit numTapes regionSize alignment
  let minPos := posA - delta
  (minPos + draw) * alignment

/-- The rejection loop of `selectRandomPair`: keep drawing candidates for
`b` until `|b - a| ≥ regionSize`.  `cand` maps a raw draw to the
candidate start; the loop returns `none` when the draw list is
exhausted (the source would keep looping). -/
def rejectLoop (regionSize a : Nat) (cand : Nat → Nat) : List Nat → Option Nat
  | [] => none
  | d :: rest =>
    let b := cand d
    if ((b : Int) - a).natAbs < regionSize then rejectLoop regionSize a cand rest
    else some b

/-- `PopulationWasm.selectRandomPair`: `a` from one aligned draw, `b`
from the rejection loop, using the locality-window candidates when
`localityLimit` is set (non-null and positive) and plain aligned draws
otherwise. -/
def selectRandomPair (regionSize alignment : Nat) (localityLimit : Option Nat)
    (numTapes : Nat) (aDraw : Nat) (bDraws : List Nat) : Option (Nat × Nat) :=
  let a := selectRandomSlice alignment aDraw
  let b :=
    match localityLimit with
    | some l =>
      if 0 < l then
        rejectLoop regionSize a
          (localCandidate regionSize alignment l numTapes a) bDraws
      else
        rejectLoop regionSize a (selectRandomSlice alignment) bDraws
    | none => rejectLoop regionSize a (selectRandomSlice alignment) bDraws
  b.map fun b => (a, b)

/-- The bound the source's `Math.floor(Math.random() * n)` draw satisfies
at each use inside `selectRandomPair`: `numPositions` for the unaligned
branch and the locality window width for the locality branch. -/
def drawBound (soupLen regionSize alignment : Nat) (localityLimit : Option Nat)
    (numTapes a : Nat) : Nat :=
  let n := numPositions soupLen regionSize alignment
  match localityLimit with
  | some l =>
    if 0 < l then
      let posA := a / alignment
      let delta := localityInPositions l numTapes regionSize alignment
      let minPos := posA - delta
      let maxPos := min (n - 1) (posA + delta)
      maxPos - minPos + 1
    else n
  | none => n

/-! ## Mutation (`mutateSelected` in population-wasm.js / bff.js)

For each selected pair, each byte offset `i < regionSize` of slice `a`
and then of slice `b` is mutated when `Math.random() < mutationRate`,
to `Math.floor(Math.random() * 256)`.  Randomness is abstracted as a
function from the offset to `none` (no mutation) or `some v` (mutate to
`v`, masked to a byte by the `Uint8Array` store). -/

def mutateSlice (soup : List Nat) (start regionSize : Nat)
    (coins : Nat → Option Nat) : List Nat :=
  (List.range regionSize).foldl
    (fun s i =>
      match coins i with
      | none => s
      | some v => s.set ((start + i) % s.length) (v % 256))
    soup

/-- `mutateSelected`: for each pair in order, mutate slice `a`, then
slice `b`. -/
def mutateSelected (regionSize : Nat) :
    List Nat → List ((Nat × Nat) × ((Nat → Option Nat) × (Nat → Option Nat))) → List Nat
  | soup, [] => soup
  | soup, ((ab, coins) :: rest) =>
    mutateSelected regionSize
      (mutateSlice (mutateSlice soup ab.1 regionSize coins.1) ab.2 regionSize coins.2)
      rest

/-! ## Driver event order (`PopulationWasm.soupStep`)

`soupStep` selects the pairs, dispatches the batch to the worker pool
(`workerPool.executeBatch(...).then(...)`, asynchronous), and then calls
`mutateSelected()` in the same synchronous body.  The batch-completion
callback (the `.then` handler, and the workers' writes it reflects) runs
only after the synchronous body has finished, so in program order the
mutation precedes the completion of the batch. -/

inductive DriverEvent where
  | selectPairs
  | dispatchBatch
  | mutate
  | batchComplete
  deriving DecidableEq, Repr

/-- The event order of one `PopulationWasm.soupStep` call: pairs are
selected, the batch is dispatched, `mutateSelected` runs synchronously,
and the batch's completion callback runs strictly later. -/
def soupStepWasmTrace : List DriverEvent :=
  [.selectPairs, .dispatchBatch, .mutate, .batchComplete]

/-! ## Configuration defaults and concrete test data -/

/-- `this.head1Offset = 32` in the `PopulationWasm` constructor
(population-wasm.js). -/
def defaultHead1Offset : Nat := 32

/-- The default region size (`regionSize = 64` in the drivers). -/
def defaultRegionSize : Nat := 64

/-- A concrete 4-byte-wide, 12-row soup (`regionSize = 4`, one region
per row) used to exercise `runPair`.  Row 2 (region start 8) holds a
single `+` opcode followed by data; row 8 (region start 32) holds pure
data.  The neighbor rows of region 8 repeat the bytes of region 32 and
vice versa, so the compression-cost comparison in the write-back phase
prefers the swapped orientation. -/
def exSoup : List Nat :=
  [9, 9, 9, 9] ++ [9, 9, 9, 9] ++ [0x2B, 7, 7, 7] ++ [9, 9, 9, 9] ++
  [9, 9, 9, 9] ++ [1, 1, 1, 1] ++ [0x2C, 7, 7, 7] ++ [0x2C, 7, 7, 7] ++
  [9, 9, 9, 9] ++ [0x2C, 7, 7, 7] ++ [0x2C, 7, 7, 7] ++ [1, 1, 1, 1]

def exPop : Population :=
  { width := 4, height := 12, regionSize := 4, soup := exSoup }

/-! ## Lemmas about wrapping and tape operations -/

theorem wrapIdx_lt {size : Nat} (h : size ≠ 0) (i : Int) : wrapIdx size i < size := by
  have hs : (0 : Int) < (size : Int) := by
    exact_mod_cast Nat.pos_of_ne_zero h
  exact (Int.toNat_lt' h).mpr (Int.tmod_lt_of_pos _ hs)

@[simp] theorem tapeSet_length (t : List Nat) (i : Int) (v : Nat) :
    (tapeSet t i v).length = t.length := by
  simp [tapeSet]

@[simp] theorem tapeIncrement_length (t : List Nat) (i : Int) :
    (tapeIncrement t i).length = t.length := by
  simp [tapeIncrement]

@[simp] theorem tapeDecrement_length (t : List Nat) (i : Int) :
    (tapeDecrement t i).length = t.length := by
  simp [tapeDecrement]

/-! ## Lemmas about the interpreter step -/

@[simp] theorem advanceIP_tape (s : BFF) : (advanceIP s).tape = s.tape := by
  simp only [advanceIP]; split <;> rfl

@[simp] theorem advanceIP_head0 (s : BFF) : (advanceIP s).head0 = s.head0 := by
  simp only [advanceIP]; split <;> rfl

@[simp] theorem advanceIP_head1 (s : BFF) : (advanceIP s).head1 = s.head1 := by
  simp only [advanceIP]; split <;> rfl

@[simp] theorem advanceIP_stepCount (s : BFF) : (advanceIP s).stepCount = s.stepCount := by
  simp only [advanceIP]; split <;> rfl

@[simp] theorem advanceIP_writeCount (s : BFF) : (advanceIP s).writeCount = s.writeCount := by
  simp only [advanceIP]; split <;> rfl

@[simp] theorem advanceIP_loopJumps (s : BFF) : (advanceIP s).loopJumps = s.loopJumps := by
  simp only [advanceIP]; split <;> rfl

theorem advanceIP_ip (s : BFF) : (advanceIP s).ip = s.ip + 1 := by
  simp only [advanceIP]; split <;> rfl

theorem stepDispatch_stepCount (s : BFF) (i : Option Instr) :
    (stepDispatch s i).stepCount = s.stepCount := by
  rcases i with _ | x
  · simp [stepDispatch]
  · cases x <;> unfold stepDispatch <;> (repeat' split) <;> simp_all

theorem stepDispatch_tape_length (s : BFF) (i : Option Instr) :
    (stepDispatch s i).tape.length = s.tape.length := by
  rcases i with _ | x
  · simp [stepDispatch]
  · cases x <;> unfold stepDispatch <;> (repeat' split) <;> simp_all

theorem stepDispatch_writeCount_mono (s : BFF) (i : Option Instr) :
    s.writeCount ≤ (stepDispatch s i).writeCount := by
  rcases i with _ | x
  · simp [stepDispatch]
  · cases x <;> unfold stepDispatch <;> (repeat' split) <;> simp_all

theorem stepDispatch_tape_of_writeCount (s : BFF) (i : Option Instr)
    (h : (stepDispatch s i).writeCount = s.writeCount) :
    (stepDispatch s i).tape = s.tape := by
  rcases i with _ | x
  · simp [stepDispatch]
  · cases x <;> unfold stepDispatch at h ⊢ <;> (repeat' split at h) <;>
      (repeat' split) <;> simp_all

theorem stepDispatch_heads (s : BFF) (i : Option Instr) (hlen : s.tape.length ≠ 0)
    (h0 : s.head0 < s.tape.length) (h1 : s.head1 < s.tape.length) :
    (stepDispatch s i).head0 < s.tape.length ∧
    (stepDispatch s i).head1 < s.tape.length := by
  rcases i with _ | x
  · simp_all [stepDispatch]
  · cases x <;> unfold stepDispatch <;> (repeat' split) <;>
      simp_all [wrapIdx_lt hlen]

theorem step_of_halted {s : BFF} (h : s.halted = true) : step s = s := by
  simp [step, h]

theorem step_stepCount {s : BFF} (hh : s.halted = false) (hc : s.stepCount < MAX_STEPS) :
    (step s).stepCount = s.stepCount + 1 := by
  simp [step, hh, Nat.not_le.mpr hc, stepDispatch_stepCount]

theorem step_cap {s : BFF} (hh : s.halted = false) (hc : MAX_STEPS ≤ s.stepCount) :
    (step s).halted = true ∧ (step s).stepCount = s.stepCount := by
  simp [step, hh, hc]

/-- When not halted and below the cap, `step` is the counted dispatch. -/
theorem step_eq_dispatch {s : BFF} (hh : s.halted = false) (hc : ¬ MAX_STEPS ≤ s.stepCount) :
    step s = stepDispatch { s with stepCount := s.stepCount + 1 }
      (byteToInstruction (tapeGet s.tape s.ip)) := by
  simp [step, hh, hc]

theorem step_tape_length (s : BFF) : (step s).tape.length = s.tape.length := by
  by_cases hh : s.halted
  · rw [step_of_halted hh]
  · by_cases hc : MAX_STEPS ≤ s.stepCount
    · simp [step, hh, hc]
    · rw [step_eq_dispatch (by simpa using hh) hc]
      exact stepDispatch_tape_length { s with stepCount := s.stepCount + 1 } _

theorem step_writeCount_mono (s : BFF) : s.writeCount ≤ (step s).writeCount := by
  by_cases hh : s.halted
  · rw [step_of_halted hh]
  · by_cases hc : MAX_STEPS ≤ s.stepCount
    · simp [step, hh, hc]
    · rw [step_eq_dispatch (by simpa using hh) hc]
      exact stepDispatch_writeCount_mono { s with stepCount := s.stepCount + 1 } _

theorem step_tape_of_writeCount {s : BFF} (h : (step s).writeCount = s.writeCount) :
    (step s).tape = s.tape := by
  by_cases hh : s.halted
  · rw [step_of_halted hh]
  · by_cases hc : MAX_STEPS ≤ s.stepCount
    · simp [step, hh, hc]
    · rw [step_eq_dispatch (by simpa using hh) hc] at h ⊢
      exact stepDispatch_tape_of_writeCount { s with stepCount := s.stepCount + 1 } _ h

theorem step_heads {s : BFF} (hlen : s.tape.length ≠ 0)
    (h0 : s.head0 < s.tape.length) (h1 : s.head1 < s.tape.length) :
    (step s).head0 < (step s).tape.length ∧ (step s).head1 < (step s).tape.length := by
  rw [step_tape_length]
  by_cases hh : s.halted
  · rw [step_of_halted hh]; exact ⟨h0, h1⟩
  · by_cases hc : MAX_STEPS ≤ s.stepCount
    · simp [step, hh, hc]; exact ⟨h0, h1⟩
    · rw [step_eq_dispatch (by simpa using hh) hc]
      exact stepDispatch_heads { s with stepCount := s.stepCount + 1 } _ hlen h0 h1

/-! ## Lemmas about the run loop -/

theorem runFuel_of_halted {s : BFF} (h : s.halted = true) (n : Nat) : runFuel n s = s := by
  cases n <;> simp [runFuel, h]

theorem runFuel_add (m n : Nat) (s : BFF) :
    runFuel (m + n) s = runFuel n (runFuel m s) := by
  induction m generalizing s with
  | zero => simp [runFuel]
  | succ m ih =>
    by_cases h : s.halted
    · rw [runFuel_of_halted h, runFuel_of_halted h, runFuel_of_halted h]
    · have hstep : runFuel (m + 1) s = runFuel m (step s) := by
        simp [runFuel, h]
      rw [hstep, ← ih]
      have : m + 1 + n = (m + n) + 1 := by omega
      rw [this]
      simp [runFuel, h]

theorem runFuel_halted {s : BFF} {n : Nat} (h : (runFuel n s).halted = true) (m : Nat) :
    runFuel (n + m) s = runFuel n s := by
  rw [runFuel_add]
  exact runFuel_of_halted h m

/-- `run` can be computed with any smaller fuel that already reaches a
halted state. -/
theorem run_eq_runFuel {s : BFF} {k : Nat} (hk : k ≤ MAX_STEPS + 1)
    (h : (runFuel k s).halted = true) : run s = runFuel k s := by
  unfold run
  have : MAX_STEPS + 1 = k + (MAX_STEPS + 1 - k) := by omega
  rw [this]
  exact runFuel_halted h _

theorem runFuel_stepCount_le {n : Nat} {s : BFF} (h : s.stepCount ≤ MAX_STEPS) :
    (runFuel n s).stepCount ≤ MAX_STEPS := by
  induction n generalizing s with
  | zero => exact h
  | succ n ih =>
    by_cases hh : s.halted
    · simpa [runFuel, hh] using h
    · simp only [runFuel, hh, if_false, Bool.false_eq_true]
      apply ih
      rcases Nat.lt_or_ge s.stepCount MAX_STEPS with hc | hc
      · rw [step_stepCount (by simpa using hh) hc]; omega
      · rw [(step_cap (by simpa using hh) hc).2]; exact h

theorem runFuel_halts {n : Nat} {s : BFF} (hc : s.stepCount ≤ MAX_STEPS)
    (hn : MAX_STEPS + 1 ≤ s.stepCount + n) : (runFuel n s).halted = true := by
  induction n generalizing s with
  | zero => omega
  | succ n ih =>
    by_cases hh : s.halted
    · simp [runFuel, hh]
    · simp only [runFuel, hh, if_false, Bool.false_eq_true]
      rcases Nat.lt_or_ge s.stepCount MAX_STEPS with hlt | hge
      · exact ih (s := step s)
          (by rw [step_stepCount (by simpa using hh) hlt]; omega)
          (by rw [step_stepCount (by simpa using hh) hlt]; omega)
      · have := step_cap (by simpa using hh) hge
        rw [runFuel_of_halted this.1]
        exact this.1

theorem runFuel_tape_length (n : Nat) (s : BFF) :
    (runFuel n s).tape.length = s.tape.length := by
  induction n generalizing s with
  | zero => rfl
  | succ n ih =>
    by_cases hh : s.halted
    · simp [runFuel, hh]
    · simp only [runFuel, hh, if_false, Bool.false_eq_true]
      rw [ih, step_tape_length]

theorem runFuel_writeCount_mono (n : Nat) (s : BFF) :
    s.writeCount ≤ (runFuel n s).writeCount := by
  induction n generalizing s with
  | zero => exact Nat.le_refl _
  | succ n ih =>
    by_cases hh : s.halted
    · simp [runFuel, hh]
    · simp only [runFuel, hh, if_false, Bool.false_eq_true]
      exact Nat.le_trans (step_writeCount_mono s) (ih (step s))

theorem runFuel_tape_of_writeCount {n : Nat} {s : BFF}
    (h : (runFuel n s).writeCount = s.writeCount) : (runFuel n s).tape = s.tape := by
  induction n generalizing s with
  | zero => rfl
  | succ n ih =>
    by_cases hh : s.halted
    · simp [runFuel, hh]
    · simp only [runFuel, hh, if_false, Bool.false_eq_true] at h ⊢
      have h1 : (step s).writeCount = s.writeCount := by
        have := step_writeCount_mono s
        have := runFuel_writeCount_mono n (step s)
        omega
      rw [ih (by omega), step_tape_of_writeCount h1]

theorem runFuel_heads {n : Nat} {s : BFF} (hlen : s.tape.length ≠ 0)
    (h0 : s.head0 < s.tape.length) (h1 : s.head1 < s.tape.length) :
    (runFuel n s).head0 < (runFuel n s).tape.length ∧
    (runFuel n s).head1 < (runFuel n s).tape.length := by
  induction n generalizing s with
  | zero => exact ⟨h0, h1⟩
  | succ n ih =>
    by_cases hh : s.halted
    · simp only [runFuel, hh, if_true]
      exact ⟨h0, h1⟩
    · simp only [runFuel, hh, if_false, Bool.false_eq_true]
      have hs := step_heads hlen h0 h1
      exact ih (s := step s) (by rw [step_tape_length]; exact hlen) hs.1 hs.2

/-! ## Lemmas about bracket matching -/

theorem findMatchFuel_lt {t : List Nat} {dir : Int} :
    ∀ {fuel : Nat} {depth pos : Int} {q : Nat},
      findMatchFuel t dir fuel depth pos = some q → q < t.length := by
  intro fuel
  induction fuel with
  | zero =>
    intro depth pos q h
    simp [findMatchFuel] at h
  | succ fuel ih =>
    intro depth pos q h
    simp only [findMatchFuel] at h
    split at h
    case isTrue => simp at h
    case isFalse hb =>
      repeat' split at h
      all_goals try exact ih h
      all_goals push_neg at hb
      all_goals obtain rfl : (pos + dir).toNat = q := Option.some.inj h
      all_goals omega

theorem findMatchingBracket_lt {t : List Nat} {start : Nat} {dir : Int} {q : Nat}
    (h : findMatchingBracket t start dir = some q) : q < t.length :=
  findMatchFuel_lt h

theorem stepDispatch_brLeft (s : BFF) (hz : tapeGet s.tape s.head0 = 0) :
    stepDispatch s (some .brLeft) =
      match findMatchingBracket s.tape s.ip 1 with
      | none => { s with halted := true, haltReason := some .unmatchedBracket }
      | some tgt => advanceIP { s with ip := tgt } := by
  simp [stepDispatch, hz]

theorem stepDispatch_brRight (s : BFF) (hz : tapeGet s.tape s.head0 ≠ 0) :
    stepDispatch s (some .brRight) =
      match findMatchingBracket s.tape s.ip (-1) with
      | none => { s with halted := true, haltReason := some .unmatchedBracket }
      | some tgt => advanceIP { s with ip := tgt, loopJumps := s.loopJumps + 1 } := by
  simp [stepDispatch, hz]

/-! ## Lemmas about the population -/

theorem runPairWriteBack_of_no_writes {p : Population} {a b : Nat} {f : BFF}
    (h : f.writeCount = 0) : runPairWriteBack p a b f = p := by
  unfold runPairWriteBack
  rw [if_neg]
  omega

/-! ## Lemmas about pair selection -/

theorem rejectLoop_some {regionSize a : Nat} {cand : Nat → Nat} :
    ∀ {ds : List Nat} {b : Nat}, rejectLoop regionSize a cand ds = some b →
      (∃ d ∈ ds, b = cand d) ∧ regionSize ≤ ((b : Int) - a).natAbs := by
  intro ds
  induction ds with
  | nil =>
    intro b h
    simp [rejectLoop] at h
  | cons d rest ih =>
    intro b h
    simp only [rejectLoop] at h
    split at h
    next hlt =>
      obtain ⟨⟨d', hd', hbd⟩, hge⟩ := ih h
      exact ⟨⟨d', List.mem_cons_of_mem _ hd', hbd⟩, hge⟩
    next hlt =>
      obtain rfl : cand d = b := Option.some.inj h
      exact ⟨⟨d, List.mem_cons_self _ _, rfl⟩, Nat.le_of_not_lt hlt⟩

/-- An aligned position below `numPositions` yields a region that fits
inside the soup. -/
theorem pos_mul_le {soupLen regionSize alignment : Nat}
    (hR : regionSize ≤ soupLen) {p : Nat}
    (hp : p < numPositions soupLen regionSize alignment) :
    p * alignment + regionSize ≤ soupLen := by
  unfold numPositions at hp
  have hp' : p ≤ (soupLen - regionSize) / alignment := by omega
  have h1 : p * alignment ≤ (soupLen - regionSize) / alignment * alignment :=
    Nat.mul_le_mul_right _ hp'
  have h2 : (soupLen - regionSize) / alignment * alignment ≤ soupLen - regionSize :=
    Nat.div_mul_le_self _ _
  omega

/-! ## Lemmas about list updates, mutation and the worker write-back -/

theorem getD_set_ne (l : List Nat) {i j : Nat} (h : i ≠ j) (v : Nat) :
    (l.set i v).getD j 0 = l.getD j 0 := by
  simp [List.getD_eq_getElem?_getD, List.getElem?_set_ne h]

theorem getD_set_self (l : List Nat) {i : Nat} (h : i < l.length) (v : Nat) :
    (l.set i v).getD i 0 = v := by
  simp [List.getD_eq_getElem?_getD, List.getElem?_set_self, h]

theorem mutateSlice_length (soup : List Nat) (start regionSize : Nat)
    (coins : Nat → Option Nat) :
    (mutateSlice soup start regionSize coins).length = soup.length := by
  unfold mutateSlice
  generalize List.range regionSize = l
  induction l generalizing soup with
  | nil => rfl
  | cons x xs ih =>
    rw [List.foldl_cons]
    rw [ih]
    cases coins x <;> simp

theorem mutateSlice_getD_ne (start regionSize : Nat) (coins : Nat → Option Nat) :
    ∀ (soup : List Nat) (idx : Nat),
      (∀ j < regionSize, (start + j) % soup.length ≠ idx) →
      (mutateSlice soup start regionSize coins).getD idx 0 = soup.getD idx 0 := by
  induction regionSize with
  | zero => intro soup idx _; rfl
  | succ n ih =>
    intro soup idx h
    unfold mutateSlice at ih ⊢
    rw [List.range_succ, List.foldl_append, List.foldl_cons, List.foldl_nil]
    have hlen : ((List.range n).foldl
        (fun s i => match coins i with
          | none => s
          | some v => s.set ((start + i) % s.length) (v % 256)) soup).length
        = soup.length := mutateSlice_length soup start n coins
    cases hc : coins n with
    | none =>
      exact ih soup idx fun j hj => h j (Nat.lt_succ_of_lt hj)
    | some v =>
      simp only
      rw [hlen, getD_set_ne _ (h n (Nat.lt_succ_self n))]
      exact ih soup idx fun j hj => h j (Nat.lt_succ_of_lt hj)

theorem mutateSelected_getD_ne (regionSize : Nat) :
    ∀ (prs : List ((Nat × Nat) × ((Nat → Option Nat) × (Nat → Option Nat))))
      (soup : List Nat) (idx : Nat),
      (∀ pr ∈ prs, ∀ j < regionSize,
        (pr.1.1 + j) % soup.length ≠ idx ∧ (pr.1.2 + j) % soup.length ≠ idx) →
      (mutateSelected regionSize soup prs).getD idx 0 = soup.getD idx 0 := by
  intro prs
  induction prs with
  | nil => intro soup idx _; rfl
  | cons pr rest ih =>
    intro soup idx h
    obtain ⟨⟨pa, pb⟩, ca, cb⟩ := pr
    have h1 : ∀ j < regionSize, (pa + j) % soup.length ≠ idx :=
      fun j hj => (h _ (List.mem_cons_self _ _) j hj).1
    have h2 : ∀ j < regionSize, (pb + j) % soup.length ≠ idx :=
      fun j hj => (h _ (List.mem_cons_self _ _) j hj).2
    have hlen1 : (mutateSlice soup pa regionSize ca).length = soup.length :=
      mutateSlice_length _ _ _ _
    have hlen2 : (mutateSlice (mutateSlice soup pa regionSize ca) pb regionSize cb).length
        = soup.length := by rw [mutateSlice_length, hlen1]
    show (mutateSelected regionSize
      (mutateSlice (mutateSlice soup pa regionSize ca) pb regionSize cb) rest).getD idx 0
        = soup.getD idx 0
    rw [ih _ idx ?_]
    · rw [mutateSlice_getD_ne pb regionSize cb _ idx ?_]
      · exact mutateSlice_getD_ne pa regionSize ca soup idx h1
      · intro j hj
        rw [hlen1]
        exact h2 j hj
    · intro q hq j hj
      rw [hlen2]
      exact h q (List.mem_cons_of_mem _ hq) j hj

theorem workerWriteLoop_spec (regionSize a b : Nat) (tape : List Nat)
    (hdisj : a + regionSize ≤ b ∨ b + regionSize ≤ a) :
    ∀ (n : Nat) (soup : List Nat), n ≤ regionSize →
      a + regionSize ≤ soup.length → b + regionSize ≤ soup.length →
      ((List.range n).foldl
          (fun s j => (s.set (a + j) (tape.getD j 0)).set (b + j)
            (tape.getD (regionSize + j) 0)) soup).length = soup.length ∧
      (∀ j < n,
        ((List.range n).foldl
            (fun s j => (s.set (a + j) (tape.getD j 0)).set (b + j)
              (tape.getD (regionSize + j) 0)) soup).getD (a + j) 0 = tape.getD j 0 ∧
        ((List.range n).foldl
            (fun s j => (s.set (a + j) (tape.getD j 0)).set (b + j)
              (tape.getD (regionSize + j) 0)) soup).getD (b + j) 0
          = tape.getD (regionSize + j) 0) := by
  intro n
  induction n with
  | zero =>
    intro soup _ _ _
    exact ⟨rfl, fun j hj => absurd hj (Nat.not_lt_zero j)⟩
  | succ n ih =>
    intro soup hn ha hb
    obtain ⟨ihlen, ihval⟩ := ih soup (Nat.le_of_succ_le hn) ha hb
    rw [List.range_succ, List.foldl_append, List.foldl_cons, List.foldl_nil]
    constructor
    · rw [List.length_set, List.length_set]
      exact ihlen
    · intro j hj
      rcases Nat.lt_or_ge j n with hjn | hjn
      · have hne1 : b + n ≠ a + j := by omega
        have hne2 : a + n ≠ a + j := by omega
        have hne3 : b + n ≠ b + j := by omega
        have hne4 : a + n ≠ b + j := by omega
        rw [getD_set_ne _ hne1, getD_set_ne _ hne2, getD_set_ne _ hne3,
          getD_set_ne _ hne4]
        exact ihval j hjn
      · obtain rfl : j = n := by omega
        have hne : b + j ≠ a + j := by omega
        constructor
        · rw [getD_set_ne _ hne, getD_set_self]
          simp only [List.length_set, ihlen]
          omega
        · rw [getD_set_self]
          simp only [List.length_set, ihlen]
          omega

/-! ## Claim theorems -/

/-- C10: calling `step()` on an interpreter whose `halted` flag is set
changes nothing — the early return leaves the tape, `ip`, both heads and
all counters untouched, so `step` is the identity on halted states. -/
theorem step_after_halt_identity (s : BFF) (h : s.halted = true) : step s = s := by
  simp [step, h]

/-- Witness for C10 at a concrete halted state. -/
theorem step_after_halt_identity_witness :
    step { tape := [0x2B, 7], ip := 2, head0 := 1, head1 := 0, stepCount := 2,
           writeCount := 1, loopJumps := 0, halted := true,
           haltReason := some .endOfTape } =
      { tape := [0x2B, 7], ip := 2, head0 := 1, head1 := 0, stepCount := 2,
        writeCount := 1, loopJumps := 0, halted := true,
        haltReason := some .endOfTape } :=
  step_after_halt_identity _ rfl

/-- C2 (counterexample): the interpreter's initial `head1` is 0, not the
region size, and the WASM driver's default `head1Offset` is 32, not the
region size 64 — refuting that the default initial `head1` is `R`, the
start of region B. -/
theorem reset_head1_counterexample :
    (reset (List.replicate (2 * defaultRegionSize) 0)).head1 ≠ defaultRegionSize ∧
    defaultHead1Offset ≠ defaultRegionSize := by
  decide

/-- C2 (amended): per pair the interpreter starts with `ip = 0`,
`head0 = 0`, all counters zero and `halted = false`; `head1` starts at 0
in the JS interpreter, and the WASM driver's configurable `head1Offset`
defaults to 32. -/
theorem reset_initial_state (t : List Nat) :
    (reset t).ip = 0 ∧ (reset t).head0 = 0 ∧ (reset t).head1 = 0 ∧
    (reset t).stepCount = 0 ∧ (reset t).writeCount = 0 ∧
    (reset t).loopJumps = 0 ∧ (reset t).halted = false ∧
    (reset t).haltReason = none ∧ defaultHead1Offset = 32 :=
  ⟨rfl, rfl, rfl, rfl, rfl, rfl, rfl, rfl, rfl⟩

/-- C6: on every tape, a full run of the interpreter from the reset
state reaches a halted state within `MAX_STEPS + 1` loop iterations, and
it dispatches at most `MAX_STEPS` instructions — in particular at most
`MAX_STEPS + 2R` for a tape of length `2R`. -/
theorem run_terminates (t : List Nat) :
    (run (reset t)).halted = true ∧
    (run (reset t)).stepCount ≤ MAX_STEPS + t.length := by
  constructor
  · exact runFuel_halts (Nat.zero_le _) (by omega)
  · exact Nat.le_trans (runFuel_stepCount_le (Nat.zero_le _)) (Nat.le_add_right _ _)

/-- C7: on a nonempty tape, at every point of the execution both head
indices are strictly below the tape length (which the run preserves), so
head movement always wraps back into `[0, 2R)`. -/
theorem heads_in_range (t : List Nat) (h : t.length ≠ 0) (n : Nat) :
    (runFuel n (reset t)).head0 < (runFuel n (reset t)).tape.length ∧
    (runFuel n (reset t)).head1 < (runFuel n (reset t)).tape.length ∧
    (runFuel n (reset t)).tape.length = t.length := by
  have h0 : (reset t).head0 < (reset t).tape.length := Nat.pos_of_ne_zero h
  have h1 : (reset t).head1 < (reset t).tape.length := Nat.pos_of_ne_zero h
  have hs := runFuel_heads (n := n) (s := reset t) h h0 h1
  exact ⟨hs.1, hs.2, runFuel_tape_length n (reset t)⟩

/-- Witness for C7 on a concrete tape and step count. -/
theorem heads_in_range_witness :
    (runFuel 3 (reset [0x3C, 0x3E])).head0 < (runFuel 3 (reset [0x3C, 0x3E])).tape.length ∧
    (runFuel 3 (reset [0x3C, 0x3E])).head1 < (runFuel 3 (reset [0x3C, 0x3E])).tape.length ∧
    (runFuel 3 (reset [0x3C, 0x3E])).tape.length = [0x3C, 0x3E].length :=
  heads_in_range [0x3C, 0x3E] (by decide) 3

/-- C4: an execution that made no write (`writeCount`, the interpreter's
combined math/copy counter, still 0) leaves the tape bitwise identical to
its input, and a pair whose result reports no writes leaves the
population — in particular both selected regions — unchanged. -/
theorem no_writes_no_change :
    (∀ t : List Nat, (run (reset t)).writeCount = 0 → (run (reset t)).tape = t) ∧
    (∀ (p : Population) (a b : Nat), (runPair p a b).2.writes = 0 →
      (runPair p a b).1 = p) := by
  constructor
  · intro t h
    have h' : (runFuel (MAX_STEPS + 1) (reset t)).writeCount = (reset t).writeCount := h
    exact runFuel_tape_of_writeCount h'
  · intro p a b h
    simp only [runPair] at h ⊢
    split at h
    next hc => rw [if_pos hc]
    next hc =>
      rw [if_neg hc]
      simp only at h ⊢
      exact runPairWriteBack_of_no_writes h

/-- Witness for C4: a tape of pure head movement produces no writes and
is returned unchanged, and the same pair run leaves the soup unchanged. -/
theorem no_writes_no_change_witness :
    (run (reset [0x3C])).tape = [0x3C] ∧
    (runPair { width := 2, height := 2, regionSize := 2, soup := [0x3C, 0, 0x3E, 0] } 0 2).1 =
      { width := 2, height := 2, regionSize := 2, soup := [0x3C, 0, 0x3E, 0] } :=
  ⟨no_writes_no_change.1 [0x3C] (by decide),
   no_writes_no_change.2 _ 0 2 (by decide)⟩

/-- C3: when the combined tape contains no opcode byte, `runPair`
short-circuits: zero steps, zero counts, halt reason `no_instructions`,
and the population (hence the tape's source bytes) is untouched. -/
theorem no_instruction_short_circuit (p : Population) (a b : Nat)
    (h : ∀ x ∈ combineTapes p.regionSize (getSlice p a) (getSlice p b),
      isInstruction x = false) :
    runPair p a b =
      (p, { steps := 0, haltReason := some .noInstructions,
            writes := 0, loopJumps := 0 }) := by
  have hI : hasInstructions
      (combineTapes p.regionSize (getSlice p a) (getSlice p b)) = false := by
    simp only [hasInstructions, List.any_eq_false]
    intro x hx
    simpa using h x hx
  simp [runPair, hI]

/-- Witness for C3 on a concrete all-data soup. -/
theorem no_instruction_short_circuit_witness :
    runPair { width := 1, height := 2, regionSize := 1, soup := [7, 9] } 0 1 =
      ({ width := 1, height := 2, regionSize := 1, soup := [7, 9] },
       { steps := 0, haltReason := some .noInstructions,
         writes := 0, loopJumps := 0 }) :=
  no_instruction_short_circuit _ 0 1 (by decide)

/-- C5: bracket matching never crosses the tape boundaries.  For a taken
`[` (value at head0 is 0) or a taken `]` (value at head0 nonzero): when
the bounded scan finds no match inside `[0, L)` the interpreter halts
with `unmatched_bracket`; otherwise the matching position is inside
`[0, L)`, the IP is set to it and the post-instruction increment
advances past it. -/
theorem bracket_matching_bounded :
    (∀ s : BFF, s.halted = false → ¬ MAX_STEPS ≤ s.stepCount →
      byteToInstruction (tapeGet s.tape s.ip) = some Instr.brLeft →
      tapeGet s.tape s.head0 = 0 →
      (findMatchingBracket s.tape s.ip 1 = none →
        (step s).halted = true ∧ (step s).haltReason = some HaltReason.unmatchedBracket) ∧
      (∀ q, findMatchingBracket s.tape s.ip 1 = some q →
        q < s.tape.length ∧ (step s).ip = q + 1)) ∧
    (∀ s : BFF, s.halted = false → ¬ MAX_STEPS ≤ s.stepCount →
      byteToInstruction (tapeGet s.tape s.ip) = some Instr.brRight →
      tapeGet s.tape s.head0 ≠ 0 →
      (findMatchingBracket s.tape s.ip (-1) = none →
        (step s).halted = true ∧ (step s).haltReason = some HaltReason.unmatchedBracket) ∧
      (∀ q, findMatchingBracket s.tape s.ip (-1) = some q →
        q < s.tape.length ∧ (step s).ip = q + 1)) := by
  constructor
  · intro s hh hc hbyte hz
    rw [step_eq_dispatch hh hc, hbyte, stepDispatch_brLeft]
    · constructor
      · intro hnone
        rw [hnone]
        exact ⟨rfl, rfl⟩
      · intro q hq
        rw [hq]
        refine ⟨findMatchingBracket_lt hq, ?_⟩
        rw [advanceIP_ip]
    · exact hz
  · intro s hh hc hbyte hz
    rw [step_eq_dispatch hh hc, hbyte, stepDispatch_brRight]
    · constructor
      · intro hnone
        rw [hnone]
        exact ⟨rfl, rfl⟩
      · intro q hq
        rw [hq]
        refine ⟨findMatchingBracket_lt hq, ?_⟩
        rw [advanceIP_ip]
    · exact hz

/-- Witness for C5: on the tape `[ 0x5B, 0, 0x5D ]` with head0 over the
zero byte, the taken `[` jumps to the matching `]` at position 2 and the
IP ends at 3. -/
theorem bracket_matching_bounded_witness :
    2 < ([0x5B, 0, 0x5D] : List Nat).length ∧
    (step { tape := [0x5B, 0, 0x5D], ip := 0, head0 := 1, head1 := 0, stepCount := 0,
            writeCount := 0, loopJumps := 0, halted := false, haltReason := none }).ip
      = 2 + 1 :=
  (bracket_matching_bounded.1
    { tape := [0x5B, 0, 0x5D], ip := 0, head0 := 1, head1 := 0, stepCount := 0,
      writeCount := 0, loopJumps := 0, halted := false, haltReason := none }
    rfl (by decide) (by decide) (by decide)).2 2 (by decide)

/-- C8: whenever `selectRandomPair` returns a pair `(a, b)` — for any
alignment, any locality setting and any sequence of in-range random
draws — the two regions do not overlap (`|a - b| ≥ regionSize`), both
starts are multiples of the alignment, and both regions fit inside the
soup (`start + regionSize ≤ soupLen`). -/
theorem selected_pair_properties
    (soupLen regionSize alignment numTapes aDraw : Nat)
    (localityLimit : Option Nat) (bDraws : List Nat) (a b : Nat)
    (hal : alignment ≠ 0) (hR : regionSize ≤ soupLen)
    (ha : aDraw < numPositions soupLen regionSize alignment)
    (hb : ∀ d ∈ bDraws, d < drawBound soupLen regionSize alignment localityLimit
      numTapes (selectRandomSlice alignment aDraw))
    (h : selectRandomPair regionSize alignment localityLimit numTapes aDraw bDraws
      = some (a, b)) :
    regionSize ≤ ((b : Int) - a).natAbs ∧
    alignment ∣ a ∧ alignment ∣ b ∧
    a + regionSize ≤ soupLen ∧ b + regionSize ≤ soupLen := by
  simp only [selectRandomPair, selectRandomSlice, Option.map_eq_some'] at h
  obtain ⟨b', hb', heq⟩ := h
  rw [Prod.mk.injEq] at heq
  obtain ⟨rfl, rfl⟩ := heq
  have hdvda : alignment ∣ aDraw * alignment := dvd_mul_left _ _
  have hba : aDraw * alignment + regionSize ≤ soupLen := pos_mul_le hR ha
  simp only [selectRandomSlice, drawBound] at hb
  rcases localityLimit with _ | l
  · obtain ⟨⟨d, hd, rfl⟩, hge⟩ := rejectLoop_some hb'
    refine ⟨hge, hdvda, dvd_mul_left _ _, hba, ?_⟩
    exact pos_mul_le hR (hb d hd)
  · simp only at hb hb'
    split at hb'
    next hl =>
      obtain ⟨⟨d, hd, rfl⟩, hge⟩ := rejectLoop_some hb'
      have hbd := hb d hd
      rw [if_pos hl] at hbd
      have hposa : aDraw * alignment / alignment = aDraw :=
        Nat.mul_div_cancel _ (Nat.pos_of_ne_zero hal)
      have hcand : localCandidate regionSize alignment l numTapes (aDraw * alignment) d
          = (aDraw - localityInPositions l numTapes regionSize alignment + d) * alignment := by
        simp [localCandidate, hposa]
      rw [hcand] at hge ⊢
      refine ⟨hge, hdvda, dvd_mul_left _ _, hba, ?_⟩
      apply pos_mul_le hR
      rw [hposa] at hbd
      have h1 : 1 ≤ numPositions soupLen regionSize alignment :=
        Nat.le_add_left 1 ((soupLen - regionSize) / alignment)
      have h2 := Nat.min_le_left (numPositions soupLen regionSize alignment - 1)
        (aDraw + localityInPositions l numTapes regionSize alignment)
      omega
    next hl =>
      obtain ⟨⟨d, hd, rfl⟩, hge⟩ := rejectLoop_some hb'
      have hbd := hb d hd
      rw [if_neg hl] at hbd
      exact ⟨hge, hdvda, dvd_mul_left _ _, hba, pos_mul_le hR hbd⟩

/-- Witness for C8: soup length 256, regions of 64, alignment 64, no
locality limit; the draw for `a` picks position 0 and the first draw for
`b` (position 0, overlapping) is rejected in favor of position 2. -/
theorem selected_pair_properties_witness :
    (64 : Nat) ≤ ((128 : Int) - 0).natAbs ∧
    (64 : Nat) ∣ 0 ∧ (64 : Nat) ∣ 128 ∧
    0 + 64 ≤ 256 ∧ 128 + 64 ≤ 256 :=
  selected_pair_properties 256 64 64 4 0 none [0, 2] 0 128
    (by decide) (by decide) (by decide) (by decide) (by decide)

/-- C9 (counterexample): in the event order of `PopulationWasm.soupStep`,
`mutateSelected` runs immediately after the batch is dispatched to the
worker pool and before the batch completes — refuting that mutation is
applied only after the pool has completed the batch's executions. -/
theorem soupStep_mutate_before_complete :
    soupStepWasmTrace.indexOf DriverEvent.mutate <
      soupStepWasmTrace.indexOf DriverEvent.batchComplete := by
  decide

/-- C9 (amended): `mutateSelected` touches only bytes of the selected
regions — any soup index outside every selected region (taken modulo the
soup length, as the source does) is left unchanged, for every pair list
and every outcome of the per-byte randomness. -/
theorem mutation_only_selected_regions
    (regionSize : Nat) (soup : List Nat)
    (prs : List ((Nat × Nat) × ((Nat → Option Nat) × (Nat → Option Nat)))) (idx : Nat)
    (h : ∀ pr ∈ prs, ∀ j < regionSize,
      (pr.1.1 + j) % soup.length ≠ idx ∧ (pr.1.2 + j) % soup.length ≠ idx) :
    (mutateSelected regionSize soup prs).getD idx 0 = soup.getD idx 0 :=
  mutateSelected_getD_ne regionSize prs soup idx h

/-- Witness for C9: mutating regions `{0}` and `{2}` of a 4-byte soup
leaves index 1 unchanged, whatever the coin flips. -/
theorem mutation_only_selected_regions_witness :
    (mutateSelected 1 [1, 2, 3, 4]
      [((0, 2), fun _ => some 9, fun _ => none)]).getD 1 0 = [1, 2, 3, 4].getD 1 0 :=
  mutation_only_selected_regions 1 [1, 2, 3, 4] _ 1 (by
    intro pr hpr
    rw [List.mem_singleton] at hpr
    subst hpr
    intro j hj
    obtain rfl : j = 0 := by omega
    exact ⟨by decide, by decide⟩)

/-- C1 (counterexample): a pair execution with a positive write count
whose write-back does NOT copy the first `R` bytes of the post-execution
tape to region A — `Population.runPair` chooses the swapped orientation
because it has the lower neighbor-row compression cost. -/
theorem runPair_swaps_halves_counterexample :
    0 < (runPair exPop 8 32).2.writes ∧
    ((runPair exPop 8 32).1.soup.drop 8).take 4 ≠
      splitLeft 4 (run (reset (combineTapes 4 (getSlice exPop 8)
        (getSlice exPop 32)))).tape := by
  decide

/-- C1 (amended): the WASM worker's write-back is in fixed orientation —
whenever `mathCount + copyCount > 0`, the first `R` bytes of the
post-execution tape go to region A (start `a`) and the next `R` bytes to
region B (start `b`), for non-overlapping in-bounds regions; the JS
`Population.runPair`, by contrast, may write the halves back swapped
(see the counterexample). -/
theorem worker_writeback_fixed_orientation
    (regionSize a b mathCount copyCount : Nat) (tape soup : List Nat)
    (hcnt : 0 < mathCount ∨ 0 < copyCount)
    (ha : a + regionSize ≤ soup.length) (hb : b + regionSize ≤ soup.length)
    (hdisj : regionSize ≤ ((a : Int) - b).natAbs) :
    ∀ j < regionSize,
      (workerWriteBack regionSize a b mathCount copyCount tape soup).getD (a + j) 0
        = tape.getD j 0 ∧
      (workerWriteBack regionSize a b mathCount copyCount tape soup).getD (b + j) 0
        = tape.getD (regionSize + j) 0 := by
  intro j hj
  have hd : a + regionSize ≤ b ∨ b + regionSize ≤ a := by omega
  rw [workerWriteBack, if_pos hcnt]
  unfold workerWriteLoop
  exact (workerWriteLoop_spec regionSize a b tape hd regionSize soup
    (Nat.le_refl _) ha hb).2 j hj

/-- Witness for C1's amended statement: one math write, regions `{0}`
and `{1}` of a 2-byte soup; the worker write-back puts `tape[0]` at `a`
and `tape[1]` at `b`. -/
theorem worker_writeback_fixed_orientation_witness :
    (workerWriteBack 1 0 1 1 0 [7, 8] [5, 6]).getD (0 + 0) 0 = [7, 8].getD 0 0 ∧
    (workerWriteBack 1 0 1 1 0 [7, 8] [5, 6]).getD (1 + 0) 0 = [7, 8].getD (1 + 0) 0 :=
  worker_writeback_fixed_orientation 1 0 1 1 0 [7, 8] [5, 6]
    (Or.inl (by decide)) (by decide) (by decide) (by decide) 0 (by decide)

end TuringSoup
